import Mathlib

/-!
# Verification of `web-text-extractor` (`src/main.py`)

A shallow embedding of the program in `src/main.py` together with proofs
settling the specification's claims about it.

Modelling conventions:

* Pure Python functions become Lean functions on `String` / `List Char` / `Nat`.
* Python exceptions become `Except PyErr _`; an uncaught exception is an
  `Except.error` value.
* The two external effectful collaborators of `extract_text` — the HTTP
  session (`requests`) and the readability engine (`readability.Document`)
  — are parameters: a `Fetch` maps a URL and the `allow_redirects` flag to
  a response or an exception, an `Engine` maps a response body to a
  `(title, summary)` pair or an exception.  All of the program's own logic
  (validation, status handling, tag stripping, entity decoding, naming,
  the batch loop, the constructor's pre-flight checks) is translated from
  the source.
* CPython library routines the source calls (`urllib.parse.urlparse`,
  `re.sub` with the fixed pattern `<.*?>`, `html.unescape`, `str.strip`,
  `hashlib.md5`, `pathlib.Path.suffix`) are modelled from their reference
  behaviour; restrictions of the models are stated in their doc comments.
-/

namespace WTE

/-- Python exception values distinguished by the handlers in `main.py`:
`ValueError`, `requests.RequestException` (which `HTTPError` subclasses),
and any other `Exception`.  Each carries its message. -/
inductive PyErr where
  | valueError : String → PyErr
  | requestError : String → PyErr
  | otherError : String → PyErr
deriving Repr, DecidableEq

/-! ## `str.strip` (used as `url.strip()` in `WebTextExtractor.read`) -/

/-- Whitespace stripped by Python's `str.strip()` (ASCII subset; the full
Python set also includes Unicode space characters, which no claim uses). -/
def isPySpace (c : Char) : Bool :=
  c = ' ' || c = '\t' || c = '\n' || c = '\r' || c = '\x0b' || c = '\x0c'

/-- Model of Python `str.strip()`: drop leading and trailing whitespace. -/
def pyStrip (s : String) : String :=
  String.mk (((s.toList.dropWhile isPySpace).reverse.dropWhile isPySpace).reverse)

/-! ## `urllib.parse.urlparse`

Model of CPython's `urlsplit` (3.11), restricted to the fields the program
reads (`scheme` and `netloc`; everything after the netloc is kept unsplit
in `rest`).  Modelled steps, in source order: left-strip of C0-control and
space characters, removal of `\t`, `\r`, `\n` everywhere, scheme
recognition (`letter (letter|digit|+|-|.)*` before the first `:`),
netloc extraction after `//`, and the `ValueError "Invalid IPv6 URL"`
raised on a netloc containing `[` without `]` or vice versa.  Omitted
(documented restrictions, none reachable from any claim's inputs): the
NFKC check that raises only for non-ASCII netlocs, and the 3.11+
validation of the text inside brackets. -/

structure SplitResult where
  scheme : String
  netloc : String
  rest : String
deriving Repr, DecidableEq

/-- `_WHATWG_C0_CONTROL_OR_SPACE`: code points `U+0000`–`U+0020`. -/
def isC0OrSpace (c : Char) : Bool := c.toNat ≤ 0x20

/-- `_UNSAFE_URL_BYTES_TO_REMOVE = ["\t", "\r", "\n"]` removed everywhere. -/
def removeUnsafe (l : List Char) : List Char :=
  l.filter (fun c => !(c = '\t' || c = '\r' || c = '\n'))

/-- ASCII letter test (`str.isascii() and str.isalpha()` on one char). -/
def isAsciiAlpha (c : Char) : Bool :=
  ('a' ≤ c && c ≤ 'z') || ('A' ≤ c && c ≤ 'Z')

/-- `scheme_chars`: letters, digits, `+`, `-`, `.`. -/
def isSchemeChar (c : Char) : Bool :=
  isAsciiAlpha c || ('0' ≤ c && c ≤ '9') || c = '+' || c = '-' || c = '.'

/-- Scheme recognition of `urlsplit`: if the text before the first `:` is a
nonempty run of scheme characters starting with an ASCII letter, it is the
(lowercased) scheme and parsing continues after the `:`. -/
def splitScheme (l : List Char) : String × List Char :=
  match l.span (fun c => c ≠ ':') with
  | (before, ':' :: after) =>
    match before with
    | [] => ("", l)
    | c0 :: _ =>
      if isAsciiAlpha c0 && before.all isSchemeChar then
        (String.mk (before.map Char.toLower), after)
      else ("", l)
  | _ => ("", l)

/-- `_splitnetloc`: the netloc runs from after `//` to the first `/`, `?`
or `#`. -/
def isNetlocEnd (c : Char) : Bool := c = '/' || c = '?' || c = '#'

/-- Model of `urllib.parse.urlparse` (see the section comment). -/
def urlparse (url : String) : Except PyErr SplitResult :=
  let l := removeUnsafe (url.toList.dropWhile isC0OrSpace)
  let (scheme, rest) := splitScheme l
  match rest with
  | '/' :: '/' :: afterSlashes =>
    let netloc := afterSlashes.takeWhile (fun c => !isNetlocEnd c)
    let rest' := afterSlashes.dropWhile (fun c => !isNetlocEnd c)
    if (netloc.contains '[' && !netloc.contains ']')
        || (netloc.contains ']' && !netloc.contains '[') then
      .error (.valueError "Invalid IPv6 URL")
    else
      .ok ⟨scheme, String.mk netloc, String.mk rest'⟩
  | _ => .ok ⟨scheme, "", String.mk rest⟩

/-! ## `is_url` (main.py lines 24–29) -/

/-- ```python
def is_url(url):
    try:
        result = urlparse(url)
        return all([result.scheme, result.netloc])
    except ValueError:
        return False
``` -/
def is_url (url : String) : Bool :=
  match urlparse url with
  | .ok result => result.scheme ≠ "" && result.netloc ≠ ""
  | .error _ => false

/-! ## `hashlib.md5` / `str.encode`

Model of MD5 (RFC 1321), operating on `Nat` bytes and 32-bit words kept
below `2 ^ 32` with explicit `% 4294967296`.  `url.encode()` is UTF-8. -/

/-- UTF-8 encoding of one code point (model of Python `str.encode()`). -/
def utf8EncodeChar (c : Char) : List Nat :=
  let n := c.toNat
  if n < 0x80 then [n]
  else if n < 0x800 then [0xC0 + n / 0x40, 0x80 + n % 0x40]
  else if n < 0x10000 then
    [0xE0 + n / 0x1000, 0x80 + n / 0x40 % 0x40, 0x80 + n % 0x40]
  else
    [0xF0 + n / 0x40000, 0x80 + n / 0x1000 % 0x40, 0x80 + n / 0x40 % 0x40,
      0x80 + n % 0x40]

/-- UTF-8 bytes of a string. -/
def utf8Encode (s : String) : List Nat := s.toList.flatMap utf8EncodeChar

/-- Truncation to a 32-bit word. -/
def w32 (n : Nat) : Nat := n % 4294967296

/-- 32-bit left rotation (correct for `x < 2 ^ 32`). -/
def rotl32 (x s : Nat) : Nat := (x * 2 ^ s + x / 2 ^ (32 - s)) % 4294967296

/-- 32-bit bitwise complement (correct for `x < 2 ^ 32`). -/
def not32 (x : Nat) : Nat := 4294967295 - x

/-- The 64 MD5 sine-derived constants `K[0..63]`. -/
def md5K : List Nat :=
  [0xd76aa478, 0xe8c7b756, 0x242070db, 0xc1bdceee,
   0xf57c0faf, 0x4787c62a, 0xa8304613, 0xfd469501,
   0x698098d8, 0x8b44f7af, 0xffff5bb1, 0x895cd7be,
   0x6b901122, 0xfd987193, 0xa679438e, 0x49b40821,
   0xf61e2562, 0xc040b340, 0x265e5a51, 0xe9b6c7aa,
   0xd62f105d, 0x02441453, 0xd8a1e681, 0xe7d3fbc8,
   0x21e1cde6, 0xc33707d6, 0xf4d50d87, 0x455a14ed,
   0xa9e3e905, 0xfcefa3f8, 0x676f02d9, 0x8d2a4c8a,
   0xfffa3942, 0x8771f681, 0x6d9d6122, 0xfde5380c,
   0xa4beea44, 0x4bdecfa9, 0xf6bb4b60, 0xbebfbc70,
   0x289b7ec6, 0xeaa127fa, 0xd4ef3085, 0x04881d05,
   0xd9d4d039, 0xe6db99e5, 0x1fa27cf8, 0xc4ac5665,
   0xf4292244, 0x432aff97, 0xab9423a7, 0xfc93a039,
   0x655b59c3, 0x8f0ccc92, 0xffeff47d, 0x85845dd1,
   0x6fa87e4f, 0xfe2ce6e0, 0xa3014314, 0x4e0811a1,
   0xf7537e82, 0xbd3af235, 0x2ad7d2bb, 0xeb86d391]

/-- The 64 MD5 per-step rotation amounts `s[0..63]`. -/
def md5S : List Nat :=
  [7, 12, 17, 22, 7, 12, 17, 22, 7, 12, 17, 22, 7, 12, 17, 22,
   5, 9, 14, 20, 5, 9, 14, 20, 5, 9, 14, 20, 5, 9, 14, 20,
   4, 11, 16, 23, 4, 11, 16, 23, 4, 11, 16, 23, 4, 11, 16, 23,
   6, 10, 15, 21, 6, 10, 15, 21, 6, 10, 15, 21, 6, 10, 15, 21]

/-- The MD5 round function and message-word index for step `i` given the
state words `b`, `c`, `d`. -/
def md5FG (i b c d : Nat) : Nat × Nat :=
  if i < 16 then ((b &&& c) ||| (not32 b &&& d), i)
  else if i < 32 then ((d &&& b) ||| (not32 d &&& c), (5 * i + 1) % 16)
  else if i < 48 then (b ^^^ c ^^^ d, (3 * i + 5) % 16)
  else (c ^^^ (b ||| not32 d), 7 * i % 16)

/-- One MD5 step. `m j` is the `j`-th 32-bit word of the current block. -/
def md5Step (m : Nat → Nat) (st : Nat × Nat × Nat × Nat) (i : Nat) :
    Nat × Nat × Nat × Nat :=
  let (a, b, c, d) := st
  let (f, g) := md5FG i b c d
  let f' := w32 (f + a + md5K.getD i 0 + m g)
  (d, w32 (b + rotl32 f' (md5S.getD i 0)), b, c)

/-- Little-endian read of a list of bytes. -/
def fromLEBytes (l : List Nat) : Nat := l.foldr (fun b acc => b + 256 * acc) 0

/-- `k` little-endian bytes of `n`. -/
def toLEBytes : Nat → Nat → List Nat
  | 0, _ => []
  | k + 1, n => n % 256 :: toLEBytes k (n / 256)

/-- The 16 message words of the 64-byte block starting at `block`. -/
def blockWords (block : List Nat) (j : Nat) : Nat :=
  fromLEBytes ((block.drop (4 * j)).take 4)

/-- Process `n` 64-byte chunks of a padded message (structural recursion
on the chunk count; the padded length is always a multiple of 64). -/
def md5Chunks : Nat → List Nat → Nat × Nat × Nat × Nat → Nat × Nat × Nat × Nat
  | 0, _, st => st
  | n + 1, l, (a0, b0, c0, d0) =>
    let (a, b, c, d) :=
      (List.range 64).foldl (md5Step (blockWords (l.take 64))) (a0, b0, c0, d0)
    md5Chunks n (l.drop 64)
      (w32 (a0 + a), w32 (b0 + b), w32 (c0 + c), w32 (d0 + d))

/-- MD5 padding: `0x80`, zeros to 56 mod 64, 8-byte little-endian bit length. -/
def md5Pad (msg : List Nat) : List Nat :=
  let padLen := (55 + 64 - msg.length % 64) % 64
  msg ++ 0x80 :: List.replicate padLen 0 ++ toLEBytes 8 (8 * msg.length)

/-- The 16 digest bytes of a message given as bytes. -/
def md5Digest (msg : List Nat) : List Nat :=
  let padded := md5Pad msg
  let (a, b, c, d) :=
    md5Chunks (padded.length / 64) padded
      (0x67452301, 0xefcdab89, 0x98badcfe, 0x10325476)
  toLEBytes 4 a ++ toLEBytes 4 b ++ toLEBytes 4 c ++ toLEBytes 4 d

/-- Lowercase hex digit. -/
def hexDigit (n : Nat) : Char := "0123456789abcdef".toList.getD n '0'

/-- The 32 characters of `md5(s.encode()).hexdigest()`. -/
def md5HexChars (s : String) : List Char :=
  (md5Digest (utf8Encode s)).flatMap (fun b => [hexDigit (b / 16), hexDigit (b % 16)])

/-! ## `generate_output_name` (main.py lines 32–36) -/

/-- ```python
def generate_output_name(index: int, url: str) -> str:
    parsed_url = urlparse(url)
    md5_hash = md5(url.encode()).hexdigest()[:8]
    base_name = f"{index}-{parsed_url.netloc}-{md5_hash}"
    return f"{base_name}.txt"
```
`urlparse` can raise `ValueError`, which propagates (no handler here). -/
def generate_output_name (index : Nat) (url : String) : Except PyErr String :=
  match urlparse url with
  | .error e => .error e
  | .ok parsed_url =>
    let md5_hash := String.mk ((md5HexChars url).take 8)
    .ok (Nat.repr index ++ "-" ++ parsed_url.netloc ++ "-" ++ md5_hash ++ ".txt")

/-! ## `re.sub(CLEAN, "", text)` with `CLEAN = re.compile("<.*?>")`

`re.sub` scans left to right and removes each non-overlapping match of
`<.*?>`: a `<`, then (non-greedily) the shortest run of non-newline
characters up to a `>`.  `.` does not match `\n` (no `DOTALL`), so a tag
match never spans a newline. -/

/-- After a `<`: the remainder past the closing `>` of the shortest match,
or `none` if a newline or the end of input intervenes. -/
def findTagEnd : List Char → Option (List Char)
  | [] => none
  | c :: rest =>
    if c = '>' then some rest
    else if c = '\n' then none
    else findTagEnd rest

theorem findTagEnd_length :
    ∀ (l r : List Char), findTagEnd l = some r → r.length < l.length := by
  intro l
  induction l with
  | nil => intro r h; simp [findTagEnd] at h
  | cons c rest ih =>
    intro r h
    by_cases hgt : c = '>'
    · simp [findTagEnd, hgt] at h
      simp [← h, List.length_cons, Nat.lt_succ_self]
    · by_cases hnl : c = '\n'
      · simp [findTagEnd, hgt, hnl] at h
      · simp only [findTagEnd, if_neg hgt, if_neg hnl] at h
        exact Nat.lt_trans (ih r h) (Nat.lt_succ_self _)

/-- Model of `re.sub(CLEAN, "", ·)` on character lists, by structural
recursion on a fuel that bounds the number of scan steps.  Each step
consumes at least one character (`findTagEnd_length`), so fuel equal to
the list length (as supplied by `stripTagsAux`) never runs out and the
fuel-exhausted branch is unreachable. -/
def stripTagsFuel : Nat → List Char → List Char
  | 0, l => l
  | _, [] => []
  | fuel + 1, c :: rest =>
    if c = '<' then
      match findTagEnd rest with
      | some rest' => stripTagsFuel fuel rest'
      | none => '<' :: stripTagsFuel fuel rest
    else c :: stripTagsFuel fuel rest

/-- Model of `re.sub(CLEAN, "", ·)` on character lists. -/
def stripTagsAux (l : List Char) : List Char := stripTagsFuel l.length l

/-- Model of `re.sub(CLEAN, "", ·)` on strings. -/
def stripTags (s : String) : String := String.mk (stripTagsAux s.toList)

/-- `true` iff the list still contains a match of `<.*?>`:
a `<` with a later `>` and no newline in between. -/
def hasTag : List Char → Bool
  | [] => false
  | c :: rest => (c = '<' && (findTagEnd rest).isSome) || hasTag rest

/-! ## `html.unescape`

Model of Python's `html.unescape`, restricted to the named references
`amp` `lt` `gt` `quot` `apos` (the first four also in their
semicolon-less legacy form, as in CPython's table) and decimal numeric
references `&#NNN` with optional `;`.  Replacement is single-pass: the
text substituted for a reference is not rescanned, so e.g. `&amp;amp;`
yields `&amp;`.  Omitted (unreachable from any claim's inputs): the other
~2000 named references, hexadecimal references, and the Windows-1252
remapping of `&#128;`–`&#159;`. -/

/-- `true` iff `pat` is an initial segment of `l`. -/
def listStarts : List Char → List Char → Bool
  | [], _ => true
  | _ :: _, [] => false
  | p :: ps, t :: ts => p = t && listStarts ps ts

theorem listStarts_drop_length (pat : List Char) :
    ∀ l : List Char, (l.drop pat.length).length ≤ l.length := by
  intro l; rw [List.length_drop]; omega

/-- The modelled named character references, longest-match first. -/
def namedEntities : List (List Char × Char) :=
  [("amp;".toList, '&'), ("lt;".toList, '<'), ("gt;".toList, '>'),
   ("quot;".toList, '"'), ("apos;".toList, Char.ofNat 39),
   ("amp".toList, '&'), ("lt".toList, '<'), ("gt".toList, '>'),
   ("quot".toList, '"')]

/-- Try each named reference in order against the text after a `&`. -/
def tryNamed : List (List Char × Char) → List Char → Option (Char × List Char)
  | [], _ => none
  | (pat, c) :: more, l =>
    if listStarts pat l then some (c, l.drop pat.length) else tryNamed more l

theorem tryNamed_length :
    ∀ (ents : List (List Char × Char)) (l : List Char) (c : Char) (r : List Char),
      tryNamed ents l = some (c, r) → r.length ≤ l.length := by
  intro ents
  induction ents with
  | nil => intro l c r h; simp [tryNamed] at h
  | cons e more ih =>
    intro l c r h
    obtain ⟨pat, d⟩ := e
    by_cases hs : listStarts pat l = true
    · simp [tryNamed, hs] at h
      rw [← h.2]; exact listStarts_drop_length pat l
    · simp [tryNamed, hs] at h; exact ih l c r h

/-- A numeric reference's code point, as a character (`U+FFFD` for values
that are not valid scalar values, as CPython substitutes). -/
def decodeCodepoint (code : Nat) : Char :=
  if 0 < code && (code < 0xd800 || (0xe000 ≤ code && code ≤ 0x10FFFF)) then
    Char.ofNat code
  else Char.ofNat 0xFFFD

/-- Try a decimal numeric reference `#NNN;?` against the text after a `&`. -/
def tryNumeric (l : List Char) : Option (Char × List Char) :=
  match l with
  | [] => none
  | c :: rest =>
    if c = '#' then
      let digits := rest.takeWhile Char.isDigit
      let rem := rest.dropWhile Char.isDigit
      if digits.isEmpty then none
      else
        let code := digits.foldl (fun a d => 10 * a + (d.toNat - 48)) 0
        let rem' := if listStarts [';'] rem then rem.drop 1 else rem
        some (decodeCodepoint code, rem')
    else none

theorem tryNumeric_length (l : List Char) (c : Char) (r : List Char) :
    tryNumeric l = some (c, r) → r.length ≤ l.length := by
  match l with
  | [] => intro h; simp [tryNumeric] at h
  | c0 :: rest =>
    intro h
    by_cases h0 : c0 = '#'
    · simp only [tryNumeric, if_pos h0] at h
      by_cases hd : (rest.takeWhile Char.isDigit).isEmpty = true
      · simp [hd] at h
      · simp only [hd, if_false, Bool.false_eq_true, Option.some.injEq,
          Prod.mk.injEq] at h
        have hrem : (rest.dropWhile Char.isDigit).length ≤ rest.length :=
          (List.dropWhile_sublist Char.isDigit).length_le
        have hr : r.length ≤ (rest.dropWhile Char.isDigit).length := by
          rw [← h.2]
          by_cases hs : listStarts [';'] (rest.dropWhile Char.isDigit) = true
          · simp [hs]
          · simp [hs]
        simp only [List.length_cons]
        omega
    · simp [tryNumeric, h0] at h

/-- Recognise one character reference after a `&`. -/
def entityMatch (l : List Char) : Option (Char × List Char) :=
  match tryNumeric l with
  | some r => some r
  | none => tryNamed namedEntities l

theorem entityMatch_length (l : List Char) (c : Char) (r : List Char)
    (h : entityMatch l = some (c, r)) : r.length ≤ l.length := by
  unfold entityMatch at h
  match hn : tryNumeric l with
  | some p => rw [hn] at h; cases h; exact tryNumeric_length l c r hn
  | none => rw [hn] at h; exact tryNamed_length namedEntities l c r h

/-- Model of `html.unescape` on character lists (single pass), by
structural recursion on a fuel bounding the number of scan steps.  Each
step consumes at least one character (`entityMatch_length`), so fuel
equal to the list length (as supplied by `unescapeAux`) never runs out
and the fuel-exhausted branch is unreachable. -/
def unescapeFuel : Nat → List Char → List Char
  | 0, l => l
  | _, [] => []
  | fuel + 1, c :: rest =>
    if c = '&' then
      match entityMatch rest with
      | some (d, rem) => d :: unescapeFuel fuel rem
      | none => '&' :: unescapeFuel fuel rest
    else c :: unescapeFuel fuel rest

/-- Model of `html.unescape` on character lists (single pass). -/
def unescapeAux (l : List Char) : List Char := unescapeFuel l.length l

/-- Model of `html.unescape` on strings. -/
def htmlUnescape (s : String) : String := String.mk (unescapeAux s.toList)

/-- `true` iff `pat` occurs as a contiguous substring of `text`. -/
def hasSubstrList : List Char → List Char → Bool
  | [], pat => pat.isEmpty
  | t :: ts, pat => listStarts pat (t :: ts) || hasSubstrList ts pat

/-- `true` iff `pat` occurs as a contiguous substring of `s`. -/
def containsSubstr (s pat : String) : Bool := hasSubstrList s.toList pat.toList

/-! ## `extract_text` (main.py lines 52–66)

```python
def extract_text(session: requests.Session, url: str) -> str:
    if not is_url(url):
        raise ValueError(f"{url} is not a url.")
    try:
        response = session.get(url, allow_redirects=False)
        response.raise_for_status()
        doc = Document(response.content)
        text = f"{doc.title()}\n{doc.summary()}"
        text = re.sub(CLEAN, "", text)
        return html.unescape(text)
    except requests.RequestException as e:
        print(f"Request failed for {url}: {e}")
    except Exception as e:
        print(f"Failed to extract text for {url}: {e}")
    return ""
```

The session and the readability engine are modelled as parameters.
`response.raise_for_status()` raises `requests.HTTPError` (a
`RequestException`) exactly for status codes 400–599.  A normal return is
`Except.ok (text, log)` where `log` lists the diagnostic lines printed on
a caught failure; an uncaught exception is `Except.error`. -/

/-- An HTTP response: status code and body bytes (`response.content`). -/
structure HttpResponse where
  status : Nat
  body : String
deriving Repr, DecidableEq

/-- `session.get`: takes the URL and the `allow_redirects` flag; returns a
response or raises. -/
def Fetch : Type := String → Bool → Except PyErr HttpResponse

/-- `Document(content)` followed by `.title()` and `.summary()`: maps the
body to a `(title, summary)` pair or raises. -/
def Engine : Type := String → Except PyErr (String × String)

/-- The diagnostic `extract_text` prints for a caught exception:
`RequestException` hits the first handler, anything else the second. -/
def errorLogLine (url : String) (e : PyErr) : String :=
  match e with
  | .requestError m => "Request failed for " ++ url ++ ": " ++ m
  | .valueError m => "Failed to extract text for " ++ url ++ ": " ++ m
  | .otherError m => "Failed to extract text for " ++ url ++ ": " ++ m

/-- The `HTTPError` message produced by `raise_for_status` (simplified to
the status code; only its handler, not its text, matters to any claim). -/
def statusError (status : Nat) : PyErr :=
  .requestError (Nat.repr status ++ " Error")

/-- The `try`-block of `extract_text` after the fetch returned a response,
with both handlers applied. -/
def handleResponse (engine : Engine) (url : String) (response : HttpResponse) :
    String × List String :=
  if 400 ≤ response.status ∧ response.status < 600 then
    ("", [errorLogLine url (statusError response.status)])
  else
    match engine response.body with
    | .error e => ("", [errorLogLine url e])
    | .ok (title, summary) =>
      (htmlUnescape (stripTags (title ++ "\n" ++ summary)), [])

/-- Model of `extract_text`.  The result pairs the returned string with
the list of diagnostic lines printed. -/
def extract_text (fetch : Fetch) (engine : Engine) (url : String) :
    Except PyErr (String × List String) :=
  if is_url url then
    match fetch url false with
    | .error e => .ok ("", [errorLogLine url e])
    | .ok response => .ok (handleResponse engine url response)
  else
    .error (.valueError (url ++ " is not a url."))

/-! ## `WebTextExtractor.__init__` (main.py lines 97–120)

The filesystem is modelled as two predicates (`Path.exists`,
`Path.is_file`); the interactive `input()` answer is a parameter.
`Path.suffix` is modelled after `pathlib` (the extension of the final
path component, empty when the only dot leads the name or ends it).
`os.makedirs` is a pure effect here (its possible `OSError` on e.g. a
permission failure is outside the model); `DEFAULT_OUTPUT_PATH`'s
`expanduser` is modelled as the identity — the constant's only role in
the claims is equality comparison with the configured output path. -/

def FILETYPE : String := ".txt"

def CONFIRM_STRINGS : List String := ["y", "yes"]

def DEFAULT_OUTPUT_PATH : String := "~/Documents/URL Text"

/-- `pathlib.PurePath.name`: the final path component (`""` and `"."`
components dropped, as pathlib normalises them away). -/
def pathName (p : String) : String :=
  (((p.splitOn "/").filter (fun s => !(s == "" || s == "."))).getLast?).getD ""

/-- Index of the last `.` in a list, if any. -/
def rfindDot (l : List Char) : Option Nat :=
  ((l.enum.filter (fun q => q.2 == '.')).getLast?).map (fun q => q.1)

/-- `pathlib.PurePath.suffix`:
`i = name.rfind('.'); name[i:] if 0 < i < len(name) - 1 else ''`. -/
def pySuffix (p : String) : String :=
  let name := (pathName p).toList
  match rfindDot name with
  | some i => if 0 < i ∧ i < name.length - 1 then String.mk (name.drop i) else ""
  | none => ""

/-- The observable filesystem state the constructor consults. -/
structure FileSystem where
  pathExists : String → Bool
  pathIsFile : String → Bool

/-- Outcome of the constructor: a raised `ValueError`, or readiness with
the final output directory (after the confirmation logic). -/
inductive InitOutcome where
  | fatal : String → InitOutcome
  | ready : String → InitOutcome
deriving Repr, DecidableEq

/-- Model of `str.lower()` (ASCII). -/
def pyLower (s : String) : String := s.map Char.toLower

/-- Model of `WebTextExtractor.__init__`.  `answer` is what `input()`
would return if the directory-creation prompt were reached. -/
def initExtractor (fs : FileSystem) (answer : String)
    (file output_path : String) : InitOutcome :=
  if !fs.pathExists file then
    .fatal ("File " ++ file ++ " does not exist.")
  else if pySuffix file ≠ FILETYPE then
    .fatal ("File " ++ file ++ " is not a text file.")
  else if fs.pathIsFile output_path then
    .fatal ("Output path " ++ output_path ++ " is not a directory.")
  else if !fs.pathExists output_path then
    if output_path ≠ DEFAULT_OUTPUT_PATH then
      if CONFIRM_STRINGS.contains (pyLower answer) then
        .ready output_path
      else
        .ready DEFAULT_OUTPUT_PATH
    else
      .ready output_path
  else
    .ready output_path

/-! ## `WebTextExtractor.read` (main.py lines 122–133)

```python
def read(self) -> None:
    with open(self.file, "r") as f:
        urls = f.readlines()
        for index, url in enumerate(urls):
            url = url.strip()
            if not is_url(url):
                continue
            print(url)
            text = extract_text(self.session, url)
            name = generate_output_name(index, url)
            with open(self.output_path / name, "w") as output:
                output.write(text)
```

The input file's lines (`f.readlines()`) are a `List String` parameter;
the writes become the returned list of `(file name, text)` pairs, in
order.  Any exception escaping the loop body aborts the whole batch
(`Except.error`). -/

/-- The loop of `read`, carrying the `enumerate` counter. -/
def readLoop (fetch : Fetch) (engine : Engine) :
    Nat → List String → Except PyErr (List (String × String))
  | _, [] => .ok []
  | index, rawUrl :: rest =>
    let url := pyStrip rawUrl
    if is_url url then
      match extract_text fetch engine url with
      | .error e => .error e
      | .ok (text, _log) =>
        match generate_output_name index url with
        | .error e => .error e
        | .ok name =>
          match readLoop fetch engine (index + 1) rest with
          | .error e => .error e
          | .ok writes => .ok ((name, text) :: writes)
    else
      readLoop fetch engine (index + 1) rest

/-- Model of `WebTextExtractor.read`: the `(file name, text)` writes the
batch performs on the given input lines. -/
def read (fetch : Fetch) (engine : Engine) (lines : List String) :
    Except PyErr (List (String × String)) :=
  readLoop fetch engine 0 lines

/-- The whole program after argument parsing (`main.py` lines 136–140):
construct, then read.  A fatal construction error surfaces as the
`ValueError` the constructor raises and nothing is fetched or written. -/
def runBatch (fs : FileSystem) (answer : String) (fetch : Fetch)
    (engine : Engine) (file output_path : String) (lines : List String) :
    Except PyErr (String × List (String × String)) :=
  match initExtractor fs answer file output_path with
  | .fatal m => .error (.valueError m)
  | .ready outDir =>
    match read fetch engine lines with
    | .error e => .error e
    | .ok writes => .ok (outDir, writes)

/-! ## Derived total descriptions of the per-item results

On a URL that passes `is_url`, `extract_text` cannot raise and
`generate_output_name` cannot raise (proved below); these total functions
give the values then produced, and are what the batch-level theorems
relate `read` to. -/

/-- The text `extract_text` returns for a URL passing validation
(`""` when it would raise, which cannot happen for validated URLs). -/
def extractedText (fetch : Fetch) (engine : Engine) (url : String) : String :=
  match extract_text fetch engine url with
  | .ok (text, _) => text
  | .error _ => ""

/-- The name `generate_output_name` returns when `urlparse` succeeds
(`""` when it would raise, which cannot happen for validated URLs). -/
def outputName (index : Nat) (url : String) : String :=
  match generate_output_name index url with
  | .ok name => name
  | .error _ => ""

/-- The `(index, stripped url)` pairs the loop processes, with indices
assigned by `enumerate` starting at `k` over all lines before filtering. -/
def validItemsFrom (k : Nat) (lines : List String) : List (Nat × String) :=
  (List.enumFrom k lines).filterMap
    (fun p => let url := pyStrip p.2; if is_url url then some (p.1, url) else none)

/-- The `(index, stripped url)` pairs the batch processes. -/
def validItems (lines : List String) : List (Nat × String) :=
  validItemsFrom 0 lines

/-! ## Facts about decimal rendering (`f"{index}"` = `Nat.repr`) -/

theorem digitChar_isDigit (m : Nat) (h : m < 10) :
    (Nat.digitChar m).isDigit = true := by
  interval_cases m <;> decide

theorem digitChar_val (m : Nat) (h : m < 10) :
    (Nat.digitChar m).toNat - 48 = m := by
  interval_cases m <;> decide

theorem toDigitsCore_digits :
    ∀ (f n : Nat) (ds : List Char), (∀ c ∈ ds, c.isDigit = true) →
      ∀ c ∈ Nat.toDigitsCore 10 f n ds, c.isDigit = true := by
  intro f
  induction f with
  | zero => intro n ds hds c hc; exact hds c hc
  | succ f ih =>
    intro n ds hds c hc
    have hd : ∀ c ∈ Nat.digitChar (n % 10) :: ds, c.isDigit = true := by
      intro c hc
      rcases List.mem_cons.mp hc with h | h
      · rw [h]; exact digitChar_isDigit _ (Nat.mod_lt _ (by decide))
      · exact hds c h
    by_cases h10 : n / 10 = 0
    · simp only [Nat.toDigitsCore, h10, if_true] at hc
      exact hd c hc
    · simp only [Nat.toDigitsCore, h10, if_false] at hc
      exact ih (n / 10) (Nat.digitChar (n % 10) :: ds) hd c hc

theorem repr_digits (n : Nat) : ∀ c ∈ (Nat.repr n).data, c.isDigit = true :=
  toDigitsCore_digits (n + 1) n [] (by intro c hc; simp at hc)

theorem toDigitsCore_append :
    ∀ (f n : Nat) (ds : List Char),
      Nat.toDigitsCore 10 f n ds = Nat.toDigitsCore 10 f n [] ++ ds := by
  intro f
  induction f with
  | zero => intro n ds; rfl
  | succ f ih =>
    intro n ds
    by_cases h10 : n / 10 = 0
    · simp [Nat.toDigitsCore, h10]
    · simp only [Nat.toDigitsCore, h10, if_false]
      rw [ih (n / 10) (Nat.digitChar (n % 10) :: ds),
        ih (n / 10) [Nat.digitChar (n % 10)]]
      simp

/-- Value of a digit string read back (proof machinery, not a model). -/
def evalDigits (l : List Char) : Nat :=
  l.foldl (fun a c => 10 * a + (c.toNat - 48)) 0

theorem evalDigits_append_single (l : List Char) (c : Char) :
    evalDigits (l ++ [c]) = 10 * evalDigits l + (c.toNat - 48) := by
  unfold evalDigits
  rw [List.foldl_append]
  rfl

theorem evalDigits_toDigitsCore :
    ∀ (n f : Nat), n < f → evalDigits (Nat.toDigitsCore 10 f n []) = n := by
  intro n
  induction n using Nat.strong_induction_on with
  | _ n ih =>
    intro f hf
    match f, hf with
    | f + 1, _ =>
      by_cases h10 : n / 10 = 0
      · have hn : n < 10 := by omega
        simp only [Nat.toDigitsCore, h10, if_true]
        show evalDigits [Nat.digitChar (n % 10)] = n
        have : evalDigits [Nat.digitChar (n % 10)] =
            (Nat.digitChar (n % 10)).toNat - 48 := by
          unfold evalDigits; simp
        rw [this, digitChar_val _ (Nat.mod_lt _ (by decide)), Nat.mod_eq_of_lt hn]
      · simp only [Nat.toDigitsCore, h10, if_false]
        rw [toDigitsCore_append, evalDigits_append_single]
        have hlt : n / 10 < n := Nat.div_lt_self (by omega) (by decide)
        have hf' : n / 10 < f := by omega
        rw [ih (n / 10) hlt f hf', digitChar_val _ (Nat.mod_lt _ (by decide))]
        omega

theorem repr_injective (m n : Nat) (h : Nat.repr m = Nat.repr n) : m = n := by
  have hd : Nat.toDigits 10 m = Nat.toDigits 10 n := congrArg String.data h
  have em := evalDigits_toDigitsCore m (m + 1) (Nat.lt_succ_self m)
  have en := evalDigits_toDigitsCore n (n + 1) (Nat.lt_succ_self n)
  unfold Nat.toDigits at hd
  rw [← em, ← en, hd]

theorem digitsDash_inj :
    ∀ (a : List Char), (∀ c ∈ a, c.isDigit = true) →
      ∀ (b : List Char), (∀ c ∈ b, c.isDigit = true) →
      ∀ (x y : List Char), a ++ '-' :: x = b ++ '-' :: y → a = b := by
  intro a
  induction a with
  | nil =>
    intro _ b hb x y h
    match b with
    | [] => rfl
    | c :: bs =>
      simp only [List.nil_append, List.cons_append, List.cons.injEq] at h
      have hc := hb c (by simp)
      rw [← h.1] at hc
      simp at hc
  | cons c as ih =>
    intro ha b hb x y h
    match b with
    | [] =>
      simp only [List.cons_append, List.nil_append, List.cons.injEq] at h
      have hc := ha c (by simp)
      rw [h.1] at hc
      simp at hc
    | d :: bs =>
      simp only [List.cons_append, List.cons.injEq] at h
      obtain ⟨rfl, h2⟩ := h
      rw [ih (fun e he => ha e (by simp [he])) bs
        (fun e he => hb e (by simp [he])) x y h2]

theorem reprDash_inj (i j : Nat) (x y : List Char)
    (h : (Nat.repr i).data ++ '-' :: x = (Nat.repr j).data ++ '-' :: y) :
    i = j := by
  have hd := digitsDash_inj _ (repr_digits i) _ (repr_digits j) x y h
  exact repr_injective i j (String.ext hd)

/-! ## Facts about the md5 hex digest -/

theorem toLEBytes_length : ∀ (k n : Nat), (toLEBytes k n).length = k := by
  intro k
  induction k with
  | zero => intro n; rfl
  | succ k ih => intro n; simp [toLEBytes, ih]

theorem toLEBytes_lt : ∀ (k n : Nat), ∀ b ∈ toLEBytes k n, b < 256 := by
  intro k
  induction k with
  | zero => intro n b hb; simp [toLEBytes] at hb
  | succ k ih =>
    intro n b hb
    simp only [toLEBytes, List.mem_cons] at hb
    rcases hb with h | h
    · rw [h]; exact Nat.mod_lt _ (by decide)
    · exact ih (n / 256) b h

theorem md5Digest_length (msg : List Nat) : (md5Digest msg).length = 16 := by
  unfold md5Digest
  generalize md5Chunks ((md5Pad msg).length / 64) (md5Pad msg)
    (0x67452301, 0xefcdab89, 0x98badcfe, 0x10325476) = st
  obtain ⟨a, b, c, d⟩ := st
  simp [toLEBytes_length]

theorem md5Digest_lt (msg : List Nat) : ∀ b ∈ md5Digest msg, b < 256 := by
  unfold md5Digest
  generalize md5Chunks ((md5Pad msg).length / 64) (md5Pad msg)
    (0x67452301, 0xefcdab89, 0x98badcfe, 0x10325476) = st
  obtain ⟨a, b, c, d⟩ := st
  intro x hx
  simp only [List.mem_append] at hx
  rcases hx with ((h | h) | h) | h <;> exact toLEBytes_lt 4 _ x h

theorem md5HexChars_length (s : String) : (md5HexChars s).length = 32 := by
  unfold md5HexChars
  have key : ∀ l : List Nat,
      (l.flatMap (fun b => [hexDigit (b / 16), hexDigit (b % 16)])).length =
        2 * l.length := by
    intro l
    induction l with
    | nil => rfl
    | cons b bs ih => simp only [List.flatMap_cons, List.length_append, ih,
        List.length_cons, List.length_nil]; omega
  rw [key, md5Digest_length]

theorem hexDigit_mem (n : Nat) : hexDigit n ∈ "0123456789abcdef".toList := by
  unfold hexDigit
  by_cases h : n < 16
  · interval_cases n <;> decide
  · rw [List.getD_eq_default]
    · decide
    · have hlen : ("0123456789abcdef".toList).length = 16 := by decide
      omega

theorem md5HexChars_hex (s : String) :
    ∀ c ∈ md5HexChars s, c ∈ "0123456789abcdef".toList := by
  intro c hc
  unfold md5HexChars at hc
  rw [List.mem_flatMap] at hc
  obtain ⟨b, _, hb⟩ := hc
  rcases List.mem_cons.mp hb with h | h
  · rw [h]; exact hexDigit_mem _
  · rcases List.mem_cons.mp h with h | h
    · rw [h]; exact hexDigit_mem _
    · simp at h

/-! ## Facts about `is_url`, `generate_output_name`, `extract_text` -/

theorem is_url_parse (url : String) (h : is_url url = true) :
    ∃ r, urlparse url = .ok r ∧ r.scheme ≠ "" ∧ r.netloc ≠ "" := by
  unfold is_url at h
  match hp : urlparse url with
  | .ok r =>
    rw [hp] at h
    simp only [Bool.and_eq_true, decide_eq_true_eq] at h
    exact ⟨r, rfl, h.1, h.2⟩
  | .error e => rw [hp] at h; cases h

theorem generate_output_name_eq (i : Nat) (url : String) (r : SplitResult)
    (hp : urlparse url = .ok r) :
    generate_output_name i url =
      .ok (Nat.repr i ++ "-" ++ r.netloc ++ "-" ++
        String.mk ((md5HexChars url).take 8) ++ ".txt") := by
  unfold generate_output_name
  rw [hp]

theorem outputName_eq (i : Nat) (url : String) (r : SplitResult)
    (hp : urlparse url = .ok r) :
    outputName i url =
      Nat.repr i ++ "-" ++ r.netloc ++ "-" ++
        String.mk ((md5HexChars url).take 8) ++ ".txt" := by
  unfold outputName
  rw [generate_output_name_eq i url r hp]

theorem outputName_ne (i j : Nat) (u v : String) (hij : i ≠ j)
    (hu : is_url u = true) (hv : is_url v = true) :
    outputName i u ≠ outputName j v := by
  obtain ⟨ru, hpu, -, -⟩ := is_url_parse u hu
  obtain ⟨rv, hpv, -, -⟩ := is_url_parse v hv
  rw [outputName_eq i u ru hpu, outputName_eq j v rv hpv]
  intro heq
  apply hij
  have hd := congrArg String.data heq
  have hdash : ("-" : String).data = ['-'] := rfl
  simp only [String.data_append, hdash, List.append_assoc,
    List.singleton_append] at hd
  exact reprDash_inj i j _ _ hd

theorem extract_text_isOk (fetch : Fetch) (engine : Engine) (url : String)
    (h : is_url url = true) :
    ∃ t log, extract_text fetch engine url = .ok (t, log) := by
  unfold extract_text
  rw [h]
  simp only [if_true]
  cases hfetch : fetch url false with
  | error e => exact ⟨"", [errorLogLine url e], rfl⟩
  | ok response =>
    exact ⟨(handleResponse engine url response).1,
      (handleResponse engine url response).2, by rw [Prod.mk.eta]⟩

/-! ## The stripped text contains no tag

Output characters of `stripTagsAux` are a subsequence of its input that
never drops a newline, so a kept `<` (one with no closing `>` before a
newline in the remaining input) still has none in the remaining output. -/

theorem findTagEnd_cons_ne (c : Char) (l : List Char)
    (hgt : c ≠ '>') (hnl : c ≠ '\n') :
    findTagEnd (c :: l) = findTagEnd l := by
  simp [findTagEnd, hgt, hnl]

theorem stripTagsFuel_tag {fuel : Nat} {rest rest' : List Char}
    (h : findTagEnd rest = some rest') :
    stripTagsFuel (fuel + 1) ('<' :: rest) = stripTagsFuel fuel rest' := by
  rw [stripTagsFuel]
  simp [h]

theorem stripTagsFuel_notag {fuel : Nat} {rest : List Char}
    (h : findTagEnd rest = none) :
    stripTagsFuel (fuel + 1) ('<' :: rest) = '<' :: stripTagsFuel fuel rest := by
  rw [stripTagsFuel]
  simp [h]

theorem stripTagsFuel_other {fuel : Nat} {c : Char} {rest : List Char}
    (hc : ¬c = '<') :
    stripTagsFuel (fuel + 1) (c :: rest) = c :: stripTagsFuel fuel rest := by
  rw [stripTagsFuel]
  simp [hc]

theorem findTagEnd_stripTagsFuel :
    ∀ (fuel : Nat) (l : List Char), l.length ≤ fuel → findTagEnd l = none →
      findTagEnd (stripTagsFuel fuel l) = none := by
  intro fuel
  induction fuel with
  | zero =>
    intro l hle h
    match l, hle with
    | [], _ => exact h
  | succ fuel ih =>
    intro l hle h
    match l with
    | [] => exact h
    | c :: rest =>
      have hrest : rest.length ≤ fuel := by
        simp only [List.length_cons] at hle; omega
      by_cases hc : c = '<'
      · subst hc
        have h' : findTagEnd rest = none := by
          rw [findTagEnd_cons_ne '<' rest (by decide) (by decide)] at h
          exact h
        rw [stripTagsFuel_notag h',
          findTagEnd_cons_ne '<' _ (by decide) (by decide)]
        exact ih rest hrest h'
      · rw [stripTagsFuel_other hc]
        by_cases hnl : c = '\n'
        · subst hnl; simp [findTagEnd]
        · have hgt : c ≠ '>' := by
            intro hgt
            subst hgt
            simp [findTagEnd] at h
          rw [findTagEnd_cons_ne c rest hgt hnl] at h
          rw [findTagEnd_cons_ne c _ hgt hnl]
          exact ih rest hrest h

theorem hasTag_stripTagsFuel :
    ∀ (fuel : Nat) (l : List Char), l.length ≤ fuel →
      hasTag (stripTagsFuel fuel l) = false := by
  intro fuel
  induction fuel with
  | zero =>
    intro l hle
    match l, hle with
    | [], _ => rfl
  | succ fuel ih =>
    intro l hle
    match l with
    | [] => rfl
    | c :: rest =>
      have hrest : rest.length ≤ fuel := by
        simp only [List.length_cons] at hle; omega
      by_cases hc : c = '<'
      · subst hc
        cases hfind : findTagEnd rest with
        | some rest' =>
          have hr' : rest'.length ≤ fuel :=
            Nat.le_of_lt (Nat.lt_of_lt_of_le
              (findTagEnd_length rest rest' hfind) hrest)
          rw [stripTagsFuel_tag hfind]
          exact ih rest' hr'
        | none =>
          rw [stripTagsFuel_notag hfind]
          simp only [hasTag, findTagEnd_stripTagsFuel fuel rest hrest hfind,
            Option.isSome_none, Bool.and_false, Bool.false_or]
          exact ih rest hrest
      · rw [stripTagsFuel_other hc]
        simp only [hasTag, ih rest hrest, Bool.or_false]
        simp [hc]

theorem hasTag_stripTagsAux (l : List Char) : hasTag (stripTagsAux l) = false :=
  hasTag_stripTagsFuel l.length l (Nat.le_refl _)

/-! ## Facts about the batch loop -/

theorem validItemsFrom_cons (k : Nat) (raw : String) (rest : List String) :
    validItemsFrom k (raw :: rest) =
      if is_url (pyStrip raw)
      then (k, pyStrip raw) :: validItemsFrom (k + 1) rest
      else validItemsFrom (k + 1) rest := by
  unfold validItemsFrom
  simp only [List.enumFrom, List.filterMap_cons]
  by_cases hv : is_url (pyStrip raw) = true <;> simp [hv]

theorem readLoop_eq (fetch : Fetch) (engine : Engine) :
    ∀ (lines : List String) (k : Nat),
      readLoop fetch engine k lines =
        .ok ((validItemsFrom k lines).map
          (fun p => (outputName p.1 p.2, extractedText fetch engine p.2))) := by
  intro lines
  induction lines with
  | nil => intro k; rfl
  | cons rawUrl rest ih =>
    intro k
    rw [validItemsFrom_cons]
    unfold readLoop
    by_cases hv : is_url (pyStrip rawUrl) = true
    · simp only [hv, if_true]
      obtain ⟨t, log, het⟩ := extract_text_isOk fetch engine (pyStrip rawUrl) hv
      rw [het]
      obtain ⟨r, hp, -, -⟩ := is_url_parse _ hv
      rw [generate_output_name_eq k _ r hp, ih (k + 1)]
      have ht : extractedText fetch engine (pyStrip rawUrl) = t := by
        unfold extractedText; rw [het]
      have hn : outputName k (pyStrip rawUrl) =
          Nat.repr k ++ "-" ++ r.netloc ++ "-" ++
            String.mk ((md5HexChars (pyStrip rawUrl)).take 8) ++ ".txt" :=
        outputName_eq k _ r hp
      simp [List.map_cons, ht, hn]
    · simp only [hv, if_false]
      exact ih (k + 1)

theorem validItemsFrom_length :
    ∀ (lines : List String) (k : Nat),
      (validItemsFrom k lines).length =
        lines.countP (fun l => is_url (pyStrip l)) := by
  intro lines
  induction lines with
  | nil => intro k; rfl
  | cons raw rest ih =>
    intro k
    rw [validItemsFrom_cons]
    simp only [List.countP_cons]
    by_cases hv : is_url (pyStrip raw) = true
    · simp [hv, ih (k + 1)]
    · simp [hv, ih (k + 1)]

theorem validItemsFrom_mem :
    ∀ (lines : List String) (k : Nat) (p : Nat × String),
      p ∈ validItemsFrom k lines →
        k ≤ p.1 ∧ p.1 - k < lines.length ∧
          pyStrip (lines.getD (p.1 - k) "") = p.2 ∧ is_url p.2 = true := by
  intro lines
  induction lines with
  | nil => intro k p hp; simp [validItemsFrom, List.enumFrom] at hp
  | cons raw rest ih =>
    intro k p hp
    rw [validItemsFrom_cons] at hp
    have main : p = (k, pyStrip raw) ∧ is_url (pyStrip raw) = true ∨
        p ∈ validItemsFrom (k + 1) rest := by
      by_cases hv : is_url (pyStrip raw) = true
      · simp only [hv, if_true] at hp
        rcases List.mem_cons.mp hp with h | h
        · exact Or.inl ⟨h, hv⟩
        · exact Or.inr h
      · simp only [hv, if_false] at hp
        exact Or.inr hp
    rcases main with ⟨rfl, hv⟩ | h
    · refine ⟨Nat.le_refl k, ?_, ?_, hv⟩
      · simp
      · simp [Nat.sub_self]
    · obtain ⟨h1, h2, h3, h4⟩ := ih (k + 1) p h
      refine ⟨by omega, by simp only [List.length_cons]; omega, ?_, h4⟩
      have hidx : p.1 - k = (p.1 - (k + 1)) + 1 := by omega
      rw [hidx]
      simpa using h3

theorem validItemsFrom_pairwise :
    ∀ (lines : List String) (k : Nat),
      (validItemsFrom k lines).Pairwise (fun p q => p.1 < q.1) := by
  intro lines
  induction lines with
  | nil => intro k; simp [validItemsFrom, List.enumFrom]
  | cons raw rest ih =>
    intro k
    rw [validItemsFrom_cons]
    by_cases hv : is_url (pyStrip raw) = true
    · simp only [hv, if_true]
      refine List.Pairwise.cons ?_ (ih (k + 1))
      intro q hq
      have := (validItemsFrom_mem rest (k + 1) q hq).1
      simp only
      omega
    · simp only [hv, if_false]
      exact ih (k + 1)

/-- Index-part injectivity for the full name shape
`{index}-{netloc}-{hash}.txt`. -/
theorem nameExpr_inj (i j : Nat) (a b ha hb : String)
    (h : Nat.repr i ++ "-" ++ a ++ "-" ++ ha ++ ".txt" =
      Nat.repr j ++ "-" ++ b ++ "-" ++ hb ++ ".txt") : i = j := by
  have hd := congrArg String.data h
  have hdash : ("-" : String).data = ['-'] := rfl
  simp only [String.data_append, hdash, List.append_assoc,
    List.singleton_append] at hd
  exact reprDash_inj i j _ _ hd

/-! ## Concrete fixtures used by counterexamples and witnesses -/

/-- A session answering every request with HTTP 200 and body `"B"`. -/
def fetch200 : Fetch := fun _ _ => .ok ⟨200, "B"⟩

/-- A session answering every request with HTTP 301 and body `"B"`
(a redirect, not followed since `allow_redirects=False`). -/
def fetch301 : Fetch := fun _ _ => .ok ⟨301, "B"⟩

/-- A session whose every request raises a `requests.RequestException`. -/
def fetchFail : Fetch := fun _ _ => .error (.requestError "boom")

/-- An engine extracting title `Title` and summary
`<p>Hello &amp; welcome</p>` (the spec's example document). -/
def engineHello : Engine := fun _ => .ok ("Title", "<p>Hello &amp; welcome</p>")

/-- An engine whose extracted title is the literal five characters
`&lt;p&gt;` (a page whose displayed title talks about the `<p>` tag). -/
def engineEscaped : Engine := fun _ => .ok ("&lt;p&gt;", "x")

/-- An engine extracting title `Moved` and summary `here` (the body of a
redirect page). -/
def engineMoved : Engine := fun _ => .ok ("Moved", "here")

/-- A filesystem on which no path exists. -/
def fsMissing : FileSystem := ⟨fun _ => false, fun _ => false⟩

/-! ## Claims -/

/-- **C1, counterexample.**  The claim says a 3xx response makes
`extract_text` return the empty string.  It does not: `raise_for_status`
raises only for status 400–599, so a 301 response's own body reaches the
extraction engine and its text is returned — here `"Moved\nhere"`, not
`""`. -/
theorem C1_counterexample :
    fetch301 "https://example.com/x" false = .ok ⟨301, "B"⟩ ∧
    extract_text fetch301 engineMoved "https://example.com/x" =
      .ok ("Moved\nhere", []) ∧
    "Moved\nhere" ≠ "" := by
  refine ⟨rfl, ?_, by decide⟩
  rfl

/-- **C1 (amended).**  A redirect (3xx) response is never automatically
followed: the fetch is issued exactly once, with redirect-following
disabled, and the result depends only on that single response (second
conjunct).  But the redirect is *not* converted to an empty string:
`raise_for_status` passes 3xx through, so the redirect response's own
body is handed to the extraction engine and its result is returned. -/
theorem C1_redirect_not_followed (fetch fetch' : Fetch) (engine : Engine)
    (url : String) (response : HttpResponse)
    (hu : is_url url = true)
    (hf : fetch url false = .ok response)
    (h3a : 300 ≤ response.status) (h3b : response.status < 400) :
    extract_text fetch engine url =
      .ok (match engine response.body with
        | .ok (title, summary) =>
          (htmlUnescape (stripTags (title ++ "\n" ++ summary)), [])
        | .error e => ("", [errorLogLine url e])) ∧
    (fetch' url false = fetch url false →
      extract_text fetch' engine url = extract_text fetch engine url) := by
  constructor
  · unfold extract_text
    rw [hu]
    simp only [if_true]
    rw [hf]
    show Except.ok (handleResponse engine url response) = _
    have hst : ¬(400 ≤ response.status ∧ response.status < 600) := by omega
    unfold handleResponse
    rw [if_neg hst]
    cases hengine : engine response.body with
    | error e => rfl
    | ok p => obtain ⟨t, s⟩ := p; rfl
  · intro heq
    unfold extract_text
    rw [hu]
    simp only [if_true]
    rw [heq]

/-- **C1, witness.** -/
theorem C1_redirect_not_followed_witness :
    extract_text fetch301 engineMoved "https://example.com/x" =
      .ok ("Moved\nhere", []) := by
  have h := C1_redirect_not_followed fetch301 fetch301 engineMoved
    "https://example.com/x" ⟨301, "B"⟩ (by decide) rfl (by decide) (by decide)
  rw [h.1]
  rfl

/-- **C2.**  For every URL passing validation `extract_text` never
propagates an exception: the result is always `Except.ok`, a fetch-layer
exception is caught, logged and turned into `("", [log line])`, and so is
an extraction-engine exception on a non-4xx/5xx response. -/
theorem C2_no_propagation (fetch : Fetch) (engine : Engine) (url : String)
    (h : is_url url = true) :
    (extract_text fetch engine url).isOk = true ∧
    (∀ e, fetch url false = .error e →
      extract_text fetch engine url = .ok ("", [errorLogLine url e])) ∧
    (∀ response e, fetch url false = .ok response →
      ¬(400 ≤ response.status ∧ response.status < 600) →
      engine response.body = .error e →
      extract_text fetch engine url = .ok ("", [errorLogLine url e])) := by
  refine ⟨?_, ?_, ?_⟩
  · obtain ⟨t, log, het⟩ := extract_text_isOk fetch engine url h
    rw [het]
    rfl
  · intro e hf
    unfold extract_text
    rw [h]
    simp only [if_true]
    rw [hf]
  · intro response e hf hst heng
    unfold extract_text
    rw [h]
    simp only [if_true]
    rw [hf]
    show Except.ok (handleResponse engine url response) = _
    unfold handleResponse
    rw [if_neg hst, heng]

/-- **C2, witness.** -/
theorem C2_no_propagation_witness :
    (extract_text fetchFail engineHello "https://example.com/x").isOk = true ∧
    extract_text fetchFail engineHello "https://example.com/x" =
      .ok ("", [errorLogLine "https://example.com/x" (.requestError "boom")]) := by
  have h := C2_no_propagation fetchFail engineHello "https://example.com/x"
    (by decide)
  exact ⟨h.1, h.2.1 _ rfl⟩

/-- **C3, counterexample.**  The claim says every successfully extracted
text is free of markup tags.  It is not: tags are stripped *before*
entities are decoded, so a title whose literal text is `&lt;p&gt;`
(no `<` present when the strip pass runs) decodes to `<p>` in the final
output of a successful 200 extraction. -/
theorem C3_counterexample :
    extract_text fetch200 engineEscaped "https://example.com/x" =
      .ok ("<p>\nx", []) ∧
    containsSubstr "<p>\nx" "<p>" = true := by
  exact ⟨by rfl, by decide⟩

/-- **C3 (amended).**  On every successful response the returned text is
`htmlUnescape (stripTags (title ++ "\n" ++ summary))` — the non-greedy
`<.*?>` strip pass runs first and leaves no tag in its own output (second
conjunct) — and the spec's concrete example extracts to
`Title\nHello & welcome`, containing `Hello & welcome` and free of `<p>`
and `&amp;`.  Entity decoding, which runs after the strip, can however
reintroduce tag text (see the counterexample), so tag-freedom holds of
the stripped text, not in general of the decoded result. -/
theorem C3_strip_then_decode (fetch : Fetch) (engine : Engine) (url : String)
    (response : HttpResponse) (title summary : String)
    (hu : is_url url = true)
    (hf : fetch url false = .ok response)
    (hst : ¬(400 ≤ response.status ∧ response.status < 600))
    (hen : engine response.body = .ok (title, summary)) :
    extract_text fetch engine url =
      .ok (htmlUnescape (stripTags (title ++ "\n" ++ summary)), []) ∧
    hasTag (stripTags (title ++ "\n" ++ summary)).toList = false ∧
    extract_text fetch200 engineHello "https://example.com/x" =
      .ok ("Title\nHello & welcome", []) ∧
    containsSubstr "Title\nHello & welcome" "Hello & welcome" = true ∧
    containsSubstr "Title\nHello & welcome" "<p>" = false ∧
    containsSubstr "Title\nHello & welcome" "&amp;" = false := by
  refine ⟨?_, ?_, by rfl, by decide, by decide, by decide⟩
  · unfold extract_text
    rw [hu]
    simp only [if_true]
    rw [hf]
    show Except.ok (handleResponse engine url response) = _
    unfold handleResponse
    rw [if_neg hst, hen]
  · exact hasTag_stripTagsAux _

/-- **C3, witness.** -/
theorem C3_strip_then_decode_witness :
    extract_text fetch200 engineHello "https://example.com/x" =
      .ok ("Title\nHello & welcome", []) := by
  have h := C3_strip_then_decode fetch200 engineHello "https://example.com/x"
    ⟨200, "B"⟩ "Title" "<p>Hello &amp; welcome</p>" (by decide) rfl
    (by decide) rfl
  exact h.2.2.1

/-- **C4.**  Whenever `i ≠ j`, the names `generate_output_name` returns
for positions `i` and `j` differ, for any URLs: the decimal index before
the first `-` differentiates the names even if netlocs and hashes
coincide. -/
theorem C4_position_differentiates (i j : Nat) (urlA urlB nameA nameB : String)
    (hij : i ≠ j)
    (hA : generate_output_name i urlA = .ok nameA)
    (hB : generate_output_name j urlB = .ok nameB) :
    nameA ≠ nameB := by
  intro heq
  apply hij
  cases hpA : urlparse urlA with
  | error e => rw [generate_output_name, hpA] at hA; cases hA
  | ok rA =>
    cases hpB : urlparse urlB with
    | error e => rw [generate_output_name, hpB] at hB; cases hB
    | ok rB =>
      have eA := generate_output_name_eq i urlA rA hpA
      have eB := generate_output_name_eq j urlB rB hpB
      rw [hA] at eA
      rw [hB] at eB
      injection eA with eA
      injection eB with eB
      rw [eA, eB] at heq
      exact nameExpr_inj i j _ _ _ _ heq

set_option maxRecDepth 8192 in
/-- **C4, witness.** -/
theorem C4_position_differentiates_witness :
    generate_output_name 0 "https://example.com/a" =
      .ok "0-example.com-cd69b81e.txt" ∧
    generate_output_name 1 "https://example.com/a" =
      .ok "1-example.com-cd69b81e.txt" ∧
    "0-example.com-cd69b81e.txt" ≠ "1-example.com-cd69b81e.txt" := by
  have h1 : generate_output_name 0 "https://example.com/a" =
      .ok "0-example.com-cd69b81e.txt" := by rfl
  have h2 : generate_output_name 1 "https://example.com/a" =
      .ok "1-example.com-cd69b81e.txt" := by rfl
  exact ⟨h1, h2,
    C4_position_differentiates 0 1 "https://example.com/a"
      "https://example.com/a" _ _ (by decide) h1 h2⟩

/-- **C5, counterexample.**  The claim says `generate_output_name` has no
failure modes for any string URL.  It does: it calls `urlparse`, which
raises `ValueError("Invalid IPv6 URL")` on a netloc with an unmatched
bracket, and nothing catches it. -/
theorem C5_counterexample :
    generate_output_name 0 "http://[" =
      .error (.valueError "Invalid IPv6 URL") := by
  rfl

/-- **C5 (amended).**  For every index and every URL whose parse succeeds
(in particular every URL the orchestrator feeds it, which passed
`is_url`), `generate_output_name` returns
`"{index}-{netloc}-{hash}.txt"` where the hash is the first 8 characters
of the URL's md5 hexdigest — 8 characters long, all lowercase hex.
Determinism and freedom from I/O hold by construction: the embedding is a
pure function of `(index, url)`. -/
theorem C5_name_shape (index : Nat) (url : String) (r : SplitResult)
    (hp : urlparse url = .ok r) :
    generate_output_name index url =
      .ok (Nat.repr index ++ "-" ++ r.netloc ++ "-" ++
        String.mk ((md5HexChars url).take 8) ++ ".txt") ∧
    (String.mk ((md5HexChars url).take 8)).length = 8 ∧
    (∀ c ∈ (md5HexChars url).take 8, c ∈ "0123456789abcdef".toList) := by
  refine ⟨generate_output_name_eq index url r hp, ?_, ?_⟩
  · show ((md5HexChars url).take 8).length = 8
    rw [List.length_take, md5HexChars_length]
    omega
  · intro c hc
    exact md5HexChars_hex url c (List.mem_of_mem_take hc)

set_option maxRecDepth 8192 in
/-- **C5, witness.** -/
theorem C5_name_shape_witness :
    generate_output_name 0 "https://example.com/a" =
      .ok "0-example.com-cd69b81e.txt" ∧
    ("cd69b81e" : String).length = 8 := by
  have h := C5_name_shape 0 "https://example.com/a"
    ⟨"https", "example.com", "/a"⟩ rfl
  refine ⟨?_, by decide⟩
  rw [h.1]
  rfl

/-- **C6.**  `is_url` is `true` exactly when parsing succeeds with both
scheme and netloc nonempty; it is `false` when both are empty and `false`
when `urlparse` raises (malformed input), and `true` on
`"https://example.com/x"`.  It never throws: the embedding is a total
function, the `except ValueError` handler having absorbed the only
exception `urlparse` raises. -/
theorem C6_is_url_spec :
    (∀ s : String, is_url s = true ↔
      ∃ r, urlparse s = .ok r ∧ r.scheme ≠ "" ∧ r.netloc ≠ "") ∧
    (∀ (s : String) (r : SplitResult),
      urlparse s = .ok r → r.scheme = "" → r.netloc = "" → is_url s = false) ∧
    (∀ (s : String) (e : PyErr), urlparse s = .error e → is_url s = false) ∧
    is_url "https://example.com/x" = true := by
  refine ⟨?_, ?_, ?_, by decide⟩
  · intro s
    constructor
    · exact is_url_parse s
    · rintro ⟨r, hp, h1, h2⟩
      unfold is_url
      rw [hp]
      simp [h1, h2]
  · intro s r hp h1 _
    unfold is_url
    rw [hp]
    simp [h1]
  · intro s e hp
    unfold is_url
    rw [hp]

/-- **C6, witness.** -/
theorem C6_is_url_spec_witness :
    is_url "http://[" = false ∧ is_url "notaurl" = false ∧
    is_url "https://example.com/x" = true := by
  refine ⟨?_, ?_, C6_is_url_spec.2.2.2⟩
  · exact C6_is_url_spec.2.2.1 "http://["
      (.valueError "Invalid IPv6 URL") rfl
  · exact C6_is_url_spec.2.1 "notaurl" ⟨"", "", "notaurl"⟩ rfl rfl rfl

/-- **C7.**  The loop enumerates all input lines before filtering: the
batch's writes are exactly one per `(index, url)` pair of
`validItems` — built by `enumerate` over *all* lines and then
filtering — and every processed pair's index is its 0-based original
line position (so skipped invalid lines still consume an index). -/
theorem C7_enumerate_before_filter (fetch : Fetch) (engine : Engine)
    (lines : List String) :
    read fetch engine lines =
      .ok ((validItems lines).map
        (fun p => (outputName p.1 p.2, extractedText fetch engine p.2))) ∧
    ∀ p ∈ validItems lines,
      p.1 < lines.length ∧ pyStrip (lines.getD p.1 "") = p.2 ∧
        is_url p.2 = true := by
  constructor
  · exact readLoop_eq fetch engine lines 0
  · intro p hp
    obtain ⟨h1, h2, h3, h4⟩ := validItemsFrom_mem lines 0 p hp
    rw [Nat.sub_zero] at h2 h3
    exact ⟨h2, h3, h4⟩

set_option maxRecDepth 8192 in
/-- **C7, witness.**  On a file whose line 1 is invalid, the valid line at
position 2 is written under index 2, not 1. -/
theorem C7_enumerate_before_filter_witness :
    read fetch200 engineHello ["https://a.b/x", "nope", "https://c.d/y"] =
      .ok [("0-a.b-0256b9aa.txt", "Title\nHello & welcome"),
        ("2-c.d-af45e48a.txt", "Title\nHello & welcome")] ∧
    ((2 : Nat), "https://c.d/y") ∈
      validItems ["https://a.b/x", "nope", "https://c.d/y"] ∧
    (2 : Nat) < 3 ∧
    pyStrip (["https://a.b/x", "nope", "https://c.d/y"].getD 2 "") =
      "https://c.d/y" := by
  have h := C7_enumerate_before_filter fetch200 engineHello
    ["https://a.b/x", "nope", "https://c.d/y"]
  have hmem : ((2 : Nat), "https://c.d/y") ∈
      validItems ["https://a.b/x", "nope", "https://c.d/y"] := by decide
  obtain ⟨ha, hb, -⟩ := h.2 _ hmem
  refine ⟨?_, hmem, ha, hb⟩
  rw [h.1]
  rfl

/-- **C8.**  On an input of `N` lines of which `M` pass validation, the
batch completes (`Except.ok`) with exactly `M` writes — one per valid
URL, regardless of fetch or extraction outcomes — and the written file
names are pairwise distinct. -/
theorem C8_one_file_per_valid_url (fetch : Fetch) (engine : Engine)
    (lines : List String) :
    ∃ writes, read fetch engine lines = .ok writes ∧
      writes.length = lines.countP (fun l => is_url (pyStrip l)) ∧
      (writes.map Prod.fst).Nodup := by
  refine ⟨_, readLoop_eq fetch engine lines 0, ?_, ?_⟩
  · rw [List.length_map]
    exact validItemsFrom_length lines 0
  · rw [List.map_map]
    have hpw : (validItemsFrom 0 lines).Pairwise
        (fun p q => outputName p.1 p.2 ≠ outputName q.1 q.2) := by
      refine (validItemsFrom_pairwise lines 0).imp_of_mem ?_
      intro p q hp hq hlt
      exact outputName_ne p.1 q.1 p.2 q.2 (Nat.ne_of_lt hlt)
        (validItemsFrom_mem lines 0 p hp).2.2.2
        (validItemsFrom_mem lines 0 q hq).2.2.2
    exact List.pairwise_map.mpr hpw

/-- **C9.**  Construction fails (raising `ValueError`) exactly when the
input file is missing, its suffix is not `.txt`, or the output path is an
existing regular file; and when it fails the whole run surfaces that
error with no fetch, extraction or write performed (the run's result is
the construction error, whatever the session, engine and input lines). -/
theorem C9_preflight_fatal (fs : FileSystem) (answer : String)
    (file output_path : String) :
    ((∃ m, initExtractor fs answer file output_path = .fatal m) ↔
      (fs.pathExists file = false ∨ pySuffix file ≠ FILETYPE ∨
        fs.pathIsFile output_path = true)) ∧
    (∀ (m : String) (fetch : Fetch) (engine : Engine) (lines : List String),
      initExtractor fs answer file output_path = .fatal m →
      runBatch fs answer fetch engine file output_path lines =
        .error (.valueError m)) := by
  constructor
  · constructor
    · rintro ⟨m, hm⟩
      by_cases h1 : fs.pathExists file = true
      · by_cases h2 : pySuffix file = FILETYPE
        · by_cases h3 : fs.pathIsFile output_path = true
          · exact Or.inr (Or.inr h3)
          · exfalso
            unfold initExtractor at hm
            rw [h1, if_neg (by simp), if_neg (by simp [h2]), if_neg h3] at hm
            repeat' split at hm
            all_goals exact InitOutcome.noConfusion hm
        · exact Or.inr (Or.inl h2)
      · exact Or.inl (by simpa using h1)
    · intro h
      by_cases h1 : fs.pathExists file = true
      · by_cases h2 : pySuffix file = FILETYPE
        · have h3 : fs.pathIsFile output_path = true := by
            rcases h with h | h | h
            · rw [h1] at h; cases h
            · exact absurd h2 h
            · exact h
          refine ⟨"Output path " ++ output_path ++ " is not a directory.", ?_⟩
          unfold initExtractor
          rw [h1, if_neg (by simp), if_neg (by simp [h2]), if_pos h3]
        · refine ⟨"File " ++ file ++ " is not a text file.", ?_⟩
          unfold initExtractor
          rw [h1, if_neg (by simp), if_pos h2]
      · have h1' : fs.pathExists file = false := by simpa using h1
        refine ⟨"File " ++ file ++ " does not exist.", ?_⟩
        unfold initExtractor
        rw [h1', if_pos (by simp)]
  · intro m fetch engine lines hm
    unfold runBatch
    rw [hm]

/-- **C9, witness.** -/
theorem C9_preflight_fatal_witness :
    initExtractor fsMissing "y" "urls.txt" "/out" =
      .fatal "File urls.txt does not exist." ∧
    runBatch fsMissing "y" fetch200 engineHello "urls.txt" "/out"
      ["https://a.b/x"] =
      .error (.valueError "File urls.txt does not exist.") := by
  have hm : initExtractor fsMissing "y" "urls.txt" "/out" =
      .fatal "File urls.txt does not exist." := rfl
  exact ⟨hm, (C9_preflight_fatal fsMissing "y" "urls.txt" "/out").2
    _ fetch200 engineHello ["https://a.b/x"] hm⟩

/-- **C10.**  On a string failing `is_url`, `extract_text` raises
`ValueError` before performing any fetch: the result is that error for
*every* session and engine, so it cannot depend on any fetch.  (The
orchestrator never triggers this: `read` checks `is_url` and skips the
line first.) -/
theorem C10_invalid_url_raises (url : String) (h : is_url url = false) :
    ∀ (fetch : Fetch) (engine : Engine),
      extract_text fetch engine url =
        .error (.valueError (url ++ " is not a url.")) := by
  intro fetch engine
  unfold extract_text
  rw [h]
  rfl

/-- **C10, witness.** -/
theorem C10_invalid_url_raises_witness :
    extract_text fetch200 engineHello "notaurl" =
      .error (.valueError "notaurl is not a url.") := by
  have h := C10_invalid_url_raises "notaurl" (by decide) fetch200 engineHello
  rw [h]
  rfl

end WTE
